import Mathlib

/-!
Verification of `causica/distributions/transforms.py` (`JointTransform`).

The source wraps `torch.distributions.Transform` to apply an independent
per-key elementary transform to each field of a `TensorDict`.  We embed:

* tensors as flat lists of rationals (the claims are structural, not about
  floating-point arithmetic);
* `TensorDict` as an ordered association list from string keys to tensors,
  with Python-`dict.update` semantics (overwrite in place, append new keys);
* an elementary `Transform` as a record of its forward / inverse /
  log-abs-det-Jacobian functions plus the introspection flags the source
  reads (`bijective`, `domain`, `codomain`) and its cache size;
* `JointTransform.__init__`, `_call`, `_inverse`, `log_abs_det_jacobian`,
  `bijective`, `domain`, `codomain` as `Except`-valued Lean functions, the
  raised `AssertionError` / `ValueError`s becoming explicit error values
  (the spec names them `TypeContractViolation`, `ConfigurationError`,
  `KeyMismatchError`).

A small mutable-heap model of `TensorDict` references is added at the end
to state the frame property (the caller's containers are never mutated:
every operation clones and updates only the clone).
-/

namespace Causica

/-- A tensor, modelled as a flat list of rational entries. -/
abbrev Tensor := List ℚ

/-- Embedding of `torch.ones_like`: a tensor of the same shape filled with ones. -/
def onesLike (t : Tensor) : Tensor := t.map (fun _ => 1)

/-- A constraint descriptor (`transform.domain` / `transform.codomain`),
kept abstract as a label. -/
abbrev Constraint := String

/-- Errors raised by construction and by the transform operations.
The source raises `AssertionError` for the construction type check
(spec: `TypeContractViolation`), `ValueError` from the torch base-class
constructor for an unsupported cache size (spec: `ConfigurationError`),
and `ValueError` with a message at call time (spec: `KeyMismatchError`). -/
inductive JTError
  | typeContractViolation : List String → JTError
  | configurationError : JTError
  | keyMismatch : String → JTError
deriving DecidableEq

/-- Diagnostic message of the key check in `_call`. -/
def msgCallKeys : String := "All keys in transformations must be in x."

/-- Diagnostic message of the key check in `_inverse`. -/
def msgInverseKeys : String := "All keys in transformations must be in y."

/-- Diagnostic message of the Jacobian key-set equality check. -/
def msgJacSameKeys : String := "x and y must have the same keys."

/-- Diagnostic message of the Jacobian registry-coverage check. -/
def msgJacCover : String := "All keys in transformations must be in x and y."

/-- Diagnostic message for a dangling reference (heap embedding only). -/
def msgBadRef : String := "invalid reference"

/-- A sample non-Transform runtime type name used in witnesses. -/
def strValueType : String := "str"

/-- An elementary `torch.distributions.Transform`: the capability the
composite consumes (spec §6). -/
structure Transform where
  forward : Tensor → Tensor
  inverse : Tensor → Tensor
  logAbsDetJac : Tensor → Tensor → Tensor
  bijective : Bool
  domain : Constraint
  codomain : Constraint
  cache_size : Nat

/-- Modelled from the spec: the `with_cache` operation of the external
Transform capability (torch's `Transform.with_cache`, not part of src/).
It returns the receiver when the cache size already matches, otherwise a
cache-enabled copy; the underlying base-class constructor only supports
cache sizes 0 and 1 and fails otherwise (spec §4.1, §6). -/
def Transform.with_cache (t : Transform) (n : Nat) : Except JTError Transform :=
  if t.cache_size == n then .ok t
  else if n == 0 || n == 1 then .ok { t with cache_size := n }
  else .error .configurationError

/-- A value supplied to the constructor's `transformations` dict: either a
genuine `Transform` or a value of some other runtime type (carrying its
type name, as `type(t)` would report it). -/
inductive TValue
  | tr : Transform → TValue
  | other : String → TValue

/-- The runtime check `isinstance(t, td.Transform)`. -/
def TValue.isTransform : TValue → Bool
  | .tr _ => true
  | .other _ => false

/-- The runtime type name `type(t)` reported in the assertion message. -/
def TValue.typeName : TValue → String
  | .tr _ => "torch.distributions.Transform"
  | .other s => s

/-- A `TensorDict`: an ordered mapping from field names to tensors. -/
abbrev TensorDict := List (String × Tensor)

namespace TensorDict

/-- The key list `x.keys()`. -/
def keys (d : TensorDict) : List String := d.map (·.1)

/-- Field lookup: `x[k]` when `k` is present. -/
def get (d : TensorDict) (k : String) : Option Tensor :=
  (d.find? (fun p => p.1 == k)).map (·.2)

/-- Total field lookup; only used under a guard that proves the key is
present, so the default is never reached. -/
def getT (d : TensorDict) (k : String) : Tensor := (d.get k).getD []

/-- One entry of `dict.update`: if `m` binds this entry's key, the value is
overwritten (key and position kept), otherwise the entry is unchanged. -/
def overwrite (m : TensorDict) (kv : String × Tensor) : String × Tensor :=
  match m.find? (fun p => p.1 == kv.1) with
  | some p => (kv.1, p.2)
  | none => kv

/-- Python `dict.update` semantics on the clone: keys already present are
overwritten in place (order kept), new keys are appended in `m`'s order.
In every call site of the source, `m`'s keys are a subset of `d`'s. -/
def update (d m : TensorDict) : TensorDict :=
  d.map (overwrite m) ++ m.filter (fun p => !(d.any (fun kv => kv.1 == p.1)))

/-- The check `set(x.keys()) == set(y.keys())` as a Boolean. -/
def sameKeys (x y : TensorDict) : Bool :=
  x.keys.all (fun k => y.keys.contains k) && y.keys.all (fun k => x.keys.contains k)

/-- The check `set(ks).issubset(x.keys())` as a Boolean. -/
def covers (x : TensorDict) (ks : List String) : Bool :=
  ks.all (fun k => x.keys.contains k)

end TensorDict

/-- The constructed composite transform: the stored registry (an ordered
mapping field name → transform) and the cache size it was built with. -/
structure JointTransform where
  transformations : List (String × Transform)
  cache_size : Nat

namespace JointTransform

/-- The registry's key list (`self.transformations.keys()`). -/
def keysOf (jt : JointTransform) : List String := jt.transformations.map (·.1)

/-- The dict comprehension `{key: t.with_cache(cache_size) for key, t in
transformations.items()}`; any failure inside `with_cache` aborts it. -/
def mapWithCache (n : Nat) : List (String × Transform) → Except JTError (List (String × Transform))
  | [] => .ok []
  | p :: rest => do
    let t ← p.2.with_cache n
    let rest' ← mapWithCache n rest
    .ok ((p.1, t) :: rest')

/-- Constructor `JointTransform.__init__`: first the `assert all(isinstance(t,
td.Transform) ...)` type check (reporting the list of value types), then —
if `cache_size` is truthy — the cache-wrapping comprehension, then the
torch base-class constructor `super().__init__(cache_size=cache_size)`,
which accepts only cache sizes 0 and 1 (modelled from the spec's Transform
capability, §4.1). -/
def init (transformations : List (String × TValue)) (cache_size : Nat) :
    Except JTError JointTransform :=
  if transformations.all (fun p => p.2.isTransform) then do
    let base : List (String × Transform) := transformations.filterMap (fun p =>
      match p.2 with
      | .tr t => some (p.1, t)
      | .other _ => none)
    let stored ← if cache_size ≠ 0 then mapWithCache cache_size base else .ok base
    if cache_size = 0 ∨ cache_size = 1 then
      .ok ⟨stored, cache_size⟩
    else
      .error .configurationError
  else
    .error (.typeContractViolation (transformations.map (fun p => p.2.typeName)))

/-- Forward application `_call`: check the registry's keys are a subset of `x`'s, then return
`x.clone().update({key: transform(x[key]) for key, transform in
self.transformations.items()})`. -/
def call (jt : JointTransform) (x : TensorDict) : Except JTError TensorDict :=
  if x.covers jt.keysOf then
    .ok (x.update (jt.transformations.map (fun p => (p.1, p.2.forward (x.getT p.1)))))
  else
    .error (.keyMismatch msgCallKeys)

/-- Inverse application `_inverse`: symmetric to `_call` with `transform.inv`. -/
def inverse (jt : JointTransform) (y : TensorDict) : Except JTError TensorDict :=
  if y.covers jt.keysOf then
    .ok (y.update (jt.transformations.map (fun p => (p.1, p.2.inverse (y.getT p.1)))))
  else
    .error (.keyMismatch msgInverseKeys)

/-- Jacobian aggregation `log_abs_det_jacobian`: check `set(x.keys()) == set(y.keys())`, then
that the registry's keys are covered, then build, over every key of `x`,
the per-key `log_abs_det_jacobian` for registered keys and
`torch.ones_like(x[key])` for unregistered ones. -/
def log_abs_det_jacobian (jt : JointTransform) (x y : TensorDict) :
    Except JTError TensorDict :=
  if x.sameKeys y then
    if x.covers jt.keysOf then
      .ok (x.update (x.keys.map (fun k =>
        (k, match jt.transformations.find? (fun p => p.1 == k) with
            | some p => p.2.logAbsDetJac (x.getT k) (y.getT k)
            | none => onesLike (x.getT k)))))
    else
      .error (.keyMismatch msgJacCover)
  else
    .error (.keyMismatch msgJacSameKeys)

/-- The `bijective` property: `all(t.bijective for t in
self.transformations.values())`. -/
def bijective (jt : JointTransform) : Bool :=
  jt.transformations.all (fun p => p.2.bijective)

/-- The `domain` property: `{key: t.domain for key, t in ...}`. -/
def domain (jt : JointTransform) : List (String × Constraint) :=
  jt.transformations.map (fun p => (p.1, p.2.domain))

/-- The `codomain` property: `{key: t.codomain for key, t in ...}`. -/
def codomain (jt : JointTransform) : List (String × Constraint) :=
  jt.transformations.map (fun p => (p.1, p.2.codomain))

end JointTransform

/-- A heap of mutable `TensorDict` cells, used to state the frame property
of the clone-then-update idiom: references are cell ids, `clone` allocates
a fresh cell, `update` mutates only the cell it is applied to. -/
structure Heap where
  cells : List (Nat × TensorDict)
  next : Nat

namespace Heap

/-- Dereference a cell. -/
def get (h : Heap) (r : Nat) : Option TensorDict :=
  (h.cells.find? (fun c => c.1 == r)).map (·.2)

/-- Cloning `x.clone()`: allocate a fresh cell holding a copy of the value. -/
def alloc (h : Heap) (d : TensorDict) : Heap × Nat :=
  (⟨h.cells ++ [(h.next, d)], h.next + 1⟩, h.next)

/-- In-place mutation of cell `r` (what `TensorDict.update` does to the
receiver it is called on). -/
def setCell (h : Heap) (r : Nat) (d : TensorDict) : Heap :=
  ⟨h.cells.map (fun c => if c.1 == r then (r, d) else c), h.next⟩

/-- Well-formed heap: every allocated id is below `next`. -/
def WF (h : Heap) : Prop := ∀ c ∈ h.cells, c.1 < h.next

end Heap

namespace JointTransform

/-- Heap-level `_call`: read `x` through its reference, check the
precondition (a raised error leaves the heap untouched, since nothing was
written yet), clone, and update only the clone. -/
def callRef (jt : JointTransform) (h : Heap) (r : Nat) : Except JTError (Heap × Nat) :=
  match Heap.get h r with
  | none => .error (.keyMismatch msgBadRef)
  | some x =>
    if TensorDict.covers x jt.keysOf then
      .ok (Heap.setCell (h.alloc x).1 (h.alloc x).2
        (TensorDict.update x (jt.transformations.map
          (fun p => (p.1, p.2.forward (TensorDict.getT x p.1))))), (h.alloc x).2)
    else
      .error (.keyMismatch msgCallKeys)

/-- Heap-level `_inverse`. -/
def inverseRef (jt : JointTransform) (h : Heap) (r : Nat) : Except JTError (Heap × Nat) :=
  match Heap.get h r with
  | none => .error (.keyMismatch msgBadRef)
  | some y =>
    if TensorDict.covers y jt.keysOf then
      .ok (Heap.setCell (h.alloc y).1 (h.alloc y).2
        (TensorDict.update y (jt.transformations.map
          (fun p => (p.1, p.2.inverse (TensorDict.getT y p.1))))), (h.alloc y).2)
    else
      .error (.keyMismatch msgInverseKeys)

/-- Heap-level `log_abs_det_jacobian` (two input references). -/
def log_abs_det_jacobianRef (jt : JointTransform) (h : Heap) (r s : Nat) :
    Except JTError (Heap × Nat) :=
  match Heap.get h r, Heap.get h s with
  | some x, some y =>
    if TensorDict.sameKeys x y then
      if TensorDict.covers x jt.keysOf then
        .ok (Heap.setCell (h.alloc x).1 (h.alloc x).2
          (TensorDict.update x ((TensorDict.keys x).map (fun k =>
            (k, match jt.transformations.find? (fun p => p.1 == k) with
                | some p => p.2.logAbsDetJac (TensorDict.getT x k) (TensorDict.getT y k)
                | none => onesLike (TensorDict.getT x k))))), (h.alloc x).2)
      else
        .error (.keyMismatch msgJacCover)
    else
      .error (.keyMismatch msgJacSameKeys)
  | _, _ => .error (.keyMismatch msgBadRef)

end JointTransform

/-- A concrete bijective elementary transform (negates every entry), used
to instantiate the theorems on concrete registries. -/
def negT : Transform :=
  { forward := fun v => v.map (fun q => -q)
    inverse := fun v => v.map (fun q => -q)
    logAbsDetJac := fun a _ => a.map (fun _ => 0)
    bijective := true
    domain := "real"
    codomain := "real"
    cache_size := 0 }

/-- A concrete non-bijective elementary transform (squares every entry). -/
def sqT : Transform :=
  { forward := fun v => v.map (fun q => q * q)
    inverse := fun v => v
    logAbsDetJac := fun a _ => a
    bijective := false
    domain := "real"
    codomain := "positive"
    cache_size := 0 }

/-- A concrete one-entry registry over key `"a"`. -/
def jtNeg : JointTransform := ⟨[("a", negT)], 0⟩

/-- A concrete container with a registered and an unregistered field. -/
def xab : TensorDict := [("a", [1]), ("b", [5])]

namespace TensorDict

theorem get_append (d₁ d₂ : TensorDict) (k : String) :
    get (d₁ ++ d₂) k = (get d₁ k).or (get d₂ k) := by
  unfold get
  rw [List.find?_append]
  cases List.find? (fun p => p.1 == k) d₁ <;> simp

theorem get_eq_some_of_mem (d : TensorDict) (k : String) (hk : k ∈ keys d) :
    ∃ v, get d k = some v := by
  induction d with
  | nil => simp [keys] at hk
  | cons kv rest ih =>
    by_cases h : kv.1 = k
    · exact ⟨kv.2, by simp [get, List.find?_cons, h]⟩
    · have hk' : k ∈ keys rest := by
        simp [keys] at hk ⊢
        tauto
      obtain ⟨v, hv⟩ := ih hk'
      refine ⟨v, ?_⟩
      simpa [get, List.find?_cons, h] using hv

theorem getT_eq (d : TensorDict) (k : String) (v : Tensor) (h : get d k = some v) :
    getT d k = v := by
  simp [getT, h]

theorem overwrite_fst (m : TensorDict) (kv : String × Tensor) :
    (overwrite m kv).1 = kv.1 := by
  unfold overwrite
  cases List.find? (fun p => p.1 == kv.1) m <;> rfl

theorem get_map_overwrite_of_find? (d m : TensorDict) (k : String) (q : String × Tensor)
    (hfind : List.find? (fun p => p.1 == k) m = some q) (hk : k ∈ keys d) :
    get (List.map (overwrite m) d) k = some q.2 := by
  induction d with
  | nil => simp [keys] at hk
  | cons kv rest ih =>
    by_cases h : kv.1 = k
    · have hov : overwrite m kv = (kv.1, q.2) := by
        unfold overwrite
        rw [h, hfind]
      unfold get
      simp only [List.map_cons, List.find?_cons, hov]
      simp [h]
    · have hk' : k ∈ keys rest := by
        simp [keys] at hk ⊢
        tauto
      have hb : (kv.1 == k) = false := by simp [h]
      unfold get
      simp only [List.map_cons, List.find?_cons, overwrite_fst]
      rw [hb]
      exact ih hk'

theorem get_map_overwrite_of_find?_none (d m : TensorDict) (k : String)
    (hfind : List.find? (fun p => p.1 == k) m = none) :
    get (List.map (overwrite m) d) k = get d k := by
  induction d with
  | nil => rfl
  | cons kv rest ih =>
    by_cases h : kv.1 = k
    · have hov : overwrite m kv = kv := by
        unfold overwrite
        rw [h, hfind]
      unfold get
      simp only [List.map_cons, List.find?_cons, hov]
      simp [h]
    · have hb : (kv.1 == k) = false := by simp [h]
      unfold get
      simp only [List.map_cons, List.find?_cons, overwrite_fst]
      rw [hb]
      exact ih

theorem get_filter_none (d : TensorDict) (g : String × Tensor → Bool) (k : String)
    (h : ∀ p ∈ d, (p.1 == k) = false) :
    get (List.filter g d) k = none := by
  unfold get
  rw [List.find?_eq_none.mpr]
  · rfl
  · intro p hp
    simp [h p (List.mem_of_mem_filter hp)]

theorem get_update_of_find? (d m : TensorDict) (k : String) (q : String × Tensor)
    (hfind : List.find? (fun p => p.1 == k) m = some q) (hk : k ∈ keys d) :
    get (update d m) k = some q.2 := by
  unfold update
  rw [get_append, get_map_overwrite_of_find? d m k q hfind hk]
  rfl

theorem get_update_of_find?_none (d m : TensorDict) (k : String)
    (hfind : List.find? (fun p => p.1 == k) m = none) :
    get (update d m) k = get d k := by
  unfold update
  have hfil : get (List.filter (fun p => !(d.any (fun kv => kv.1 == p.1))) m) k = none := by
    apply get_filter_none
    intro p hp
    have := List.find?_eq_none.mp hfind p hp
    simpa using this
  rw [get_append, get_map_overwrite_of_find?_none d m k hfind, hfil, Option.or_none]

theorem keys_update (d m : TensorDict) (hsub : ∀ p ∈ m, p.1 ∈ keys d) :
    keys (update d m) = keys d := by
  unfold update keys
  rw [List.map_append]
  have hfilter : List.filter (fun p => !(d.any (fun kv => kv.1 == p.1))) m = [] := by
    rw [List.filter_eq_nil_iff]
    intro p hp
    have : d.any (fun kv => kv.1 == p.1) = true := by
      rw [List.any_eq_true]
      have := hsub p hp
      simp only [keys, List.mem_map] at this
      obtain ⟨kv, hkv, hkv1⟩ := this
      exact ⟨kv, hkv, by simp [hkv1]⟩
    simp [this]
  rw [hfilter]
  simp only [List.map_nil, List.append_nil, List.map_map]
  apply List.map_congr_left
  intro kv _
  exact overwrite_fst m kv

theorem covers_iff (x : TensorDict) (ks : List String) :
    covers x ks = true ↔ ∀ k ∈ ks, k ∈ keys x := by
  simp [covers]

theorem sameKeys_iff (x y : TensorDict) :
    sameKeys x y = true ↔ (∀ k ∈ keys x, k ∈ keys y) ∧ (∀ k ∈ keys y, k ∈ keys x) := by
  simp [sameKeys]

end TensorDict

/-- In a mapping with no repeated keys, `find?` by a member's key returns
exactly that member. -/
theorem find?_eq_of_nodup {α : Type} (l : List (String × α)) (p : String × α)
    (hnd : (l.map (·.1)).Nodup) (hp : p ∈ l) :
    l.find? (fun q => q.1 == p.1) = some p := by
  induction l with
  | nil => simp at hp
  | cons q rest ih =>
    rcases List.mem_cons.mp hp with h | h
    · subst h
      simp [List.find?_cons]
    · rw [List.map_cons, List.nodup_cons] at hnd
      have hq : (q.1 == p.1) = false := by
        have hmem : p.1 ∈ rest.map (·.1) := List.mem_map.mpr ⟨p, h, rfl⟩
        simp only [beq_eq_false_iff_ne, ne_eq]
        intro he
        exact hnd.1 (he ▸ hmem)
      simp only [List.find?_cons]
      rw [hq]
      exact ih hnd.2 h

/-- In a mapping, `find?` by a key outside the key list returns `none`. -/
theorem find?_eq_none_of_not_mem {α : Type} (l : List (String × α)) (k : String)
    (hk : k ∉ l.map (·.1)) :
    l.find? (fun q => q.1 == k) = none := by
  rw [List.find?_eq_none]
  intro q hq
  simp only [beq_eq_false_iff_ne, ne_eq, Bool.not_eq_true, beq_eq_false_iff_ne]
  intro he
  exact hk (List.mem_map.mpr ⟨q, hq, he⟩)

/-- Characterization of `x.clone().update({key: f(key, t) ...})` over a
registry `l` whose keys all occur in `x` and are not repeated: registered
keys read back the computed value, unregistered keys are untouched, and
the key list is unchanged. -/
theorem get_update_mapped (x : TensorDict) (l : List (String × Transform))
    (f : String × Transform → Tensor)
    (hnd : (l.map (·.1)).Nodup) (hcov : ∀ k ∈ l.map (·.1), k ∈ TensorDict.keys x) :
    (∀ p ∈ l,
      TensorDict.get (TensorDict.update x (l.map (fun q => (q.1, f q)))) p.1 = some (f p)) ∧
    (∀ k, k ∉ l.map (·.1) →
      TensorDict.get (TensorDict.update x (l.map (fun q => (q.1, f q)))) k =
        TensorDict.get x k) ∧
    TensorDict.keys (TensorDict.update x (l.map (fun q => (q.1, f q)))) =
      TensorDict.keys x := by
  refine ⟨?_, ?_, ?_⟩
  · intro p hp
    have hfind : List.find? (fun r => r.1 == p.1) (l.map (fun q => (q.1, f q))) =
        some (p.1, f p) := by
      rw [List.find?_map]
      have hl : List.find? ((fun r : String × Tensor => r.1 == p.1) ∘ (fun q => (q.1, f q))) l =
          some p := by
        have := find?_eq_of_nodup l p hnd hp
        simpa [Function.comp] using this
      rw [hl]
      rfl
    exact TensorDict.get_update_of_find? x _ p.1 (p.1, f p) hfind
      (hcov p.1 (List.mem_map.mpr ⟨p, hp, rfl⟩))
  · intro k hk
    have hfind : List.find? (fun r => r.1 == k) (l.map (fun q => (q.1, f q))) = none := by
      rw [List.find?_map]
      have hl : List.find? ((fun r : String × Tensor => r.1 == k) ∘ (fun q => (q.1, f q))) l =
          none := by
        have := find?_eq_none_of_not_mem l k hk
        simpa [Function.comp] using this
      rw [hl]
      rfl
    exact TensorDict.get_update_of_find?_none x _ k hfind
  · apply TensorDict.keys_update
    intro p hp
    obtain ⟨q, hq, rfl⟩ := List.mem_map.mp hp
    exact hcov q.1 (List.mem_map.mpr ⟨q, hq, rfl⟩)

/-- Helper: `find?` by equality with a member of the list returns the first such
member, which for the key list of a dict is the key itself. -/
theorem find?_beq_self (l : List String) (a : String) (h : a ∈ l) :
    l.find? (fun b => b == a) = some a := by
  induction l with
  | nil => simp at h
  | cons b rest ih =>
    by_cases hb : b = a
    · simp [List.find?_cons, hb]
    · have ha : a ∈ rest := by
        rcases List.mem_cons.mp h with h' | h'
        · exact absurd h'.symm hb
        · exact h'
      have hbeq : (b == a) = false := by simp [hb]
      simp only [List.find?_cons]
      rw [hbeq]
      exact ih ha

/-- Characterization of `x.clone().update({key: g(key) for key in
x.keys()})`: every key of `x` reads back its computed value. -/
theorem get_update_keyed (x : TensorDict) (g : String → Tensor) (k : String)
    (hk : k ∈ TensorDict.keys x) :
    TensorDict.get (TensorDict.update x ((TensorDict.keys x).map (fun j => (j, g j)))) k =
      some (g k) := by
  have hfind : List.find? (fun r => r.1 == k) ((TensorDict.keys x).map (fun j => (j, g j))) =
      some (k, g k) := by
    rw [List.find?_map]
    have hl : List.find? ((fun r : String × Tensor => r.1 == k) ∘ (fun j => (j, g j)))
        (TensorDict.keys x) = some k := by
      have := find?_beq_self (TensorDict.keys x) k hk
      simpa [Function.comp] using this
    rw [hl]
    rfl
  exact TensorDict.get_update_of_find? x _ k (k, g k) hfind hk

/-- Claim C2: For every container `x` whose keys cover the registry (whose
keys, coming from a Python dict, are not repeated), `forward(x)` is a
container with the same key set as `x` in which each registered key `k`
holds `transform[k].forward(x[k])` and every key not in the registry holds
exactly the input value; `inverse` is symmetric, overwriting each
registered key with `transform[k].inverse` of the input field and leaving
non-registered keys exactly as in the input container. -/
theorem forward_inverse_fieldwise (jt : JointTransform) (x : TensorDict)
    (hnd : (jt.transformations.map (·.1)).Nodup)
    (hcov : ∀ k ∈ jt.keysOf, k ∈ TensorDict.keys x) :
    ∃ y z, jt.call x = .ok y ∧ jt.inverse x = .ok z ∧
      TensorDict.keys y = TensorDict.keys x ∧
      TensorDict.keys z = TensorDict.keys x ∧
      (∀ p ∈ jt.transformations,
        TensorDict.get y p.1 = some (p.2.forward (TensorDict.getT x p.1)) ∧
        TensorDict.get z p.1 = some (p.2.inverse (TensorDict.getT x p.1))) ∧
      (∀ k, k ∉ jt.keysOf →
        TensorDict.get y k = TensorDict.get x k ∧
        TensorDict.get z k = TensorDict.get x k) := by
  have hguard : TensorDict.covers x jt.keysOf = true :=
    (TensorDict.covers_iff x jt.keysOf).mpr hcov
  have hf := get_update_mapped x jt.transformations
    (fun q => q.2.forward (TensorDict.getT x q.1)) hnd hcov
  have hi := get_update_mapped x jt.transformations
    (fun q => q.2.inverse (TensorDict.getT x q.1)) hnd hcov
  refine ⟨_, _, ?_, ?_, hf.2.2, hi.2.2, ?_, ?_⟩
  · simp [JointTransform.call, hguard]
  · simp [JointTransform.inverse, hguard]
  · exact fun p hp => ⟨hf.1 p hp, hi.1 p hp⟩
  · exact fun k hk => ⟨hf.2.1 k hk, hi.2.1 k hk⟩

/-- Witness for C2: the concrete registry `{"a": negT}` applied to the
container `{"a": [1], "b": [5]}`. -/
theorem forward_inverse_fieldwise_witness :
    ∃ y z, jtNeg.call xab = .ok y ∧ jtNeg.inverse xab = .ok z ∧
      TensorDict.keys y = TensorDict.keys xab ∧
      TensorDict.keys z = TensorDict.keys xab ∧
      (∀ p ∈ jtNeg.transformations,
        TensorDict.get y p.1 = some (p.2.forward (TensorDict.getT xab p.1)) ∧
        TensorDict.get z p.1 = some (p.2.inverse (TensorDict.getT xab p.1))) ∧
      (∀ k, k ∉ jtNeg.keysOf →
        TensorDict.get y k = TensorDict.get xab k ∧
        TensorDict.get z k = TensorDict.get xab k) :=
  forward_inverse_fieldwise jtNeg xab (by simp [jtNeg]) (by decide)

/-- Claim C1: For every keyed container `x` whose key set is a superset of
the registry's, and every registry whose component transforms are true
two-sided inverse pairs, `inverse(forward(x))` equals `x` field-by-field
for every registered key, and every key of `x` not in the registry comes
back with its input value unchanged. -/
theorem inverse_forward_roundtrip (jt : JointTransform) (x : TensorDict)
    (hnd : (jt.transformations.map (·.1)).Nodup)
    (hcov : ∀ k ∈ jt.keysOf, k ∈ TensorDict.keys x)
    (hbij : ∀ p ∈ jt.transformations,
      (∀ v, p.2.inverse (p.2.forward v) = v) ∧
      (∀ v, p.2.forward (p.2.inverse v) = v)) :
    ∃ y z, jt.call x = .ok y ∧ jt.inverse y = .ok z ∧
      (∀ p ∈ jt.transformations, TensorDict.get z p.1 = TensorDict.get x p.1) ∧
      (∀ k, k ∉ jt.keysOf → TensorDict.get z k = TensorDict.get x k) := by
  have hguard : TensorDict.covers x jt.keysOf = true :=
    (TensorDict.covers_iff x jt.keysOf).mpr hcov
  have hf := get_update_mapped x jt.transformations
    (fun q => q.2.forward (TensorDict.getT x q.1)) hnd hcov
  set y : TensorDict := TensorDict.update x (jt.transformations.map
    (fun q => (q.1, q.2.forward (TensorDict.getT x q.1)))) with hy
  have hcovy : ∀ k ∈ jt.keysOf, k ∈ TensorDict.keys y := by
    intro k hk
    rw [hf.2.2]
    exact hcov k hk
  have hi := get_update_mapped y jt.transformations
    (fun q => q.2.inverse (TensorDict.getT y q.1)) hnd hcovy
  refine ⟨y, TensorDict.update y (jt.transformations.map
    (fun q => (q.1, q.2.inverse (TensorDict.getT y q.1)))), ?_, ?_, ?_, ?_⟩
  · simp [JointTransform.call, hguard]
  · simp [JointTransform.inverse, (TensorDict.covers_iff y jt.keysOf).mpr hcovy]
  · intro p hp
    have hgy : TensorDict.get y p.1 = some (p.2.forward (TensorDict.getT x p.1)) := hf.1 p hp
    have hgty : TensorDict.getT y p.1 = p.2.forward (TensorDict.getT x p.1) :=
      TensorDict.getT_eq y p.1 _ hgy
    have hz : TensorDict.get (TensorDict.update y (jt.transformations.map
        (fun q => (q.1, q.2.inverse (TensorDict.getT y q.1))))) p.1 =
        some (p.2.inverse (TensorDict.getT y p.1)) := hi.1 p hp
    rw [hgty, (hbij p hp).1] at hz
    have hx : TensorDict.get x p.1 = some (TensorDict.getT x p.1) := by
      obtain ⟨v, hv⟩ := TensorDict.get_eq_some_of_mem x p.1
        (hcov p.1 (List.mem_map.mpr ⟨p, hp, rfl⟩))
      rw [hv, TensorDict.getT_eq x p.1 v hv]
    rw [hz, hx]
  · intro k hk
    rw [hi.2.1 k hk]
    exact hf.2.1 k hk

/-- Witness for C1: round-trip of the concrete registry `{"a": negT}` on
`{"a": [1], "b": [5]}`. -/
theorem inverse_forward_roundtrip_witness :
    ∃ y z, jtNeg.call xab = .ok y ∧ jtNeg.inverse y = .ok z ∧
      (∀ p ∈ jtNeg.transformations, TensorDict.get z p.1 = TensorDict.get xab p.1) ∧
      (∀ k, k ∉ jtNeg.keysOf → TensorDict.get z k = TensorDict.get xab k) :=
  inverse_forward_roundtrip jtNeg xab (by simp [jtNeg]) (by decide)
    (by
      intro p hp
      simp [jtNeg] at hp
      constructor <;> intro v <;>
        simp [hp, negT, List.map_map, Function.comp])

/-- Claim C3: For every pair of containers `x`, `y` with identical key sets
covering the registry, `log_abs_det_jacobian(x, y)` is a container with
the same key set as `x` whose value at each registered key `k` is
`transform[k].log_abs_det_jacobian(x[k], y[k])` and whose value at each
non-registered key is a tensor of the same shape as that field filled with
the value one (not zero). -/
theorem log_abs_det_jacobian_fieldwise (jt : JointTransform) (x y : TensorDict)
    (hnd : (jt.transformations.map (·.1)).Nodup)
    (hsame : ∀ k, k ∈ TensorDict.keys x ↔ k ∈ TensorDict.keys y)
    (hcov : ∀ k ∈ jt.keysOf, k ∈ TensorDict.keys x) :
    ∃ r, jt.log_abs_det_jacobian x y = .ok r ∧
      TensorDict.keys r = TensorDict.keys x ∧
      (∀ p ∈ jt.transformations,
        TensorDict.get r p.1 =
          some (p.2.logAbsDetJac (TensorDict.getT x p.1) (TensorDict.getT y p.1))) ∧
      (∀ k ∈ TensorDict.keys x, k ∉ jt.keysOf →
        TensorDict.get r k = some (onesLike (TensorDict.getT x k))) := by
  have hguard1 : TensorDict.sameKeys x y = true :=
    (TensorDict.sameKeys_iff x y).mpr
      ⟨fun k hk => (hsame k).mp hk, fun k hk => (hsame k).mpr hk⟩
  have hguard2 : TensorDict.covers x jt.keysOf = true :=
    (TensorDict.covers_iff x jt.keysOf).mpr hcov
  refine ⟨TensorDict.update x ((TensorDict.keys x).map (fun k =>
    (k, match jt.transformations.find? (fun p => p.1 == k) with
        | some p => p.2.logAbsDetJac (TensorDict.getT x k) (TensorDict.getT y k)
        | none => onesLike (TensorDict.getT x k)))), ?_, ?_, ?_, ?_⟩
  · simp [JointTransform.log_abs_det_jacobian, hguard1, hguard2]
  · apply TensorDict.keys_update
    intro p hp
    obtain ⟨j, hj, rfl⟩ := List.mem_map.mp hp
    exact hj
  · intro p hp
    have hk : p.1 ∈ TensorDict.keys x := hcov p.1 (List.mem_map.mpr ⟨p, hp, rfl⟩)
    have := get_update_keyed x (fun k =>
      match jt.transformations.find? (fun q => q.1 == k) with
      | some q => q.2.logAbsDetJac (TensorDict.getT x k) (TensorDict.getT y k)
      | none => onesLike (TensorDict.getT x k)) p.1 hk
    rw [this]
    simp [find?_eq_of_nodup jt.transformations p hnd hp]
  · intro k hk hnr
    have := get_update_keyed x (fun k =>
      match jt.transformations.find? (fun q => q.1 == k) with
      | some q => q.2.logAbsDetJac (TensorDict.getT x k) (TensorDict.getT y k)
      | none => onesLike (TensorDict.getT x k)) k hk
    rw [this]
    simp [find?_eq_none_of_not_mem jt.transformations k hnr]

/-- Witness for C3: the concrete registry `{"a": negT}` on the pair
`({"a": [1], "b": [5]}, {"a": [1], "b": [5]})`. -/
theorem log_abs_det_jacobian_fieldwise_witness :
    ∃ r, jtNeg.log_abs_det_jacobian xab xab = .ok r ∧
      TensorDict.keys r = TensorDict.keys xab ∧
      (∀ p ∈ jtNeg.transformations,
        TensorDict.get r p.1 =
          some (p.2.logAbsDetJac (TensorDict.getT xab p.1) (TensorDict.getT xab p.1))) ∧
      (∀ k ∈ TensorDict.keys xab, k ∉ jtNeg.keysOf →
        TensorDict.get r k = some (onesLike (TensorDict.getT xab k))) :=
  log_abs_det_jacobian_fieldwise jtNeg xab xab (by simp [jtNeg])
    (fun _ => Iff.rfl) (by decide)

/-- Counterexample to C4 as stated: the `KeyMismatchError` for a missing
registry key is one fixed diagnostic value — two registries missing
different keys produce identical errors on the empty container, so the
error does not name the missing keys. -/
theorem keyMismatch_fixed_message :
    (JointTransform.mk [("zq", negT)] 0).call [] =
      (JointTransform.mk [("ww", negT)] 0).call [] ∧
    (JointTransform.mk [("zq", negT)] 0).call [] =
      .error (.keyMismatch msgCallKeys) ∧
    (JointTransform.mk [("zq", negT)] 0).inverse [] =
      (JointTransform.mk [("ww", negT)] 0).inverse [] := by
  exact ⟨rfl, rfl, rfl⟩

/-- Claim C4 (amended): For every container `x` whose key set does not
include every registry key, `forward` (and likewise `inverse`) fails with
a `KeyMismatchError` carrying a fixed diagnostic message — the missing
keys are not named in it — produces no partial result, and invokes no
component transform. -/
theorem keyMismatch_fail_fast (jt : JointTransform) (x : TensorDict)
    (hmiss : ¬ ∀ k ∈ jt.keysOf, k ∈ TensorDict.keys x) :
    jt.call x = .error (.keyMismatch msgCallKeys) ∧
    jt.inverse x = .error (.keyMismatch msgInverseKeys) := by
  have hguard : TensorDict.covers x jt.keysOf = false := by
    cases h : TensorDict.covers x jt.keysOf
    · rfl
    · exact absurd ((TensorDict.covers_iff x jt.keysOf).mp h) hmiss
  constructor <;> simp [JointTransform.call, JointTransform.inverse, hguard]

/-- Witness for the amended C4: `{"a": negT}` applied to the empty
container. -/
theorem keyMismatch_fail_fast_witness :
    jtNeg.call [] = .error (.keyMismatch msgCallKeys) ∧
    jtNeg.inverse [] = .error (.keyMismatch msgInverseKeys) :=
  keyMismatch_fail_fast jtNeg [] (by decide)

/-- Claim C5: `log_abs_det_jacobian(x, y)` fails with a `KeyMismatchError`
when `x` and `y` have different key sets, and with a `KeyMismatchError`
when the key sets agree but the registry's keys are not a subset of the
shared key set; the two error values are distinct, so a caller can tell
which precondition was violated. -/
theorem log_abs_det_jacobian_key_errors (jt : JointTransform) (x y : TensorDict) :
    (¬ (∀ k, k ∈ TensorDict.keys x ↔ k ∈ TensorDict.keys y) →
      jt.log_abs_det_jacobian x y =
        .error (.keyMismatch msgJacSameKeys)) ∧
    ((∀ k, k ∈ TensorDict.keys x ↔ k ∈ TensorDict.keys y) →
      ¬ (∀ k ∈ jt.keysOf, k ∈ TensorDict.keys x) →
      jt.log_abs_det_jacobian x y =
        .error (.keyMismatch msgJacCover)) ∧
    JTError.keyMismatch msgJacSameKeys ≠
      JTError.keyMismatch msgJacCover := by
  refine ⟨?_, ?_, by decide⟩
  · intro hdiff
    have hguard : TensorDict.sameKeys x y = false := by
      cases h : TensorDict.sameKeys x y
      · rfl
      · have hpair := (TensorDict.sameKeys_iff x y).mp h
        exact absurd (fun k => ⟨fun hk => hpair.1 k hk, fun hk => hpair.2 k hk⟩) hdiff
    simp [JointTransform.log_abs_det_jacobian, hguard]
  · intro hsame hmiss
    have hguard1 : TensorDict.sameKeys x y = true :=
      (TensorDict.sameKeys_iff x y).mpr
        ⟨fun k hk => (hsame k).mp hk, fun k hk => (hsame k).mpr hk⟩
    have hguard2 : TensorDict.covers x jt.keysOf = false := by
      cases h : TensorDict.covers x jt.keysOf
      · rfl
      · exact absurd ((TensorDict.covers_iff x jt.keysOf).mp h) hmiss
    simp [JointTransform.log_abs_det_jacobian, hguard1, hguard2]

/-- Witness for C5: both error cases at concrete containers, with
distinguishable error values. -/
theorem log_abs_det_jacobian_key_errors_witness :
    jtNeg.log_abs_det_jacobian [("a", [1])] [] =
      .error (.keyMismatch msgJacSameKeys) ∧
    jtNeg.log_abs_det_jacobian [("b", [2])] [("b", [3])] =
      .error (.keyMismatch msgJacCover) :=
  ⟨(log_abs_det_jacobian_key_errors jtNeg [("a", [1])] []).1
    (by
      intro h
      have h2 := (h ("a")).mp (by decide)
      simp [TensorDict.keys] at h2),
   (log_abs_det_jacobian_key_errors jtNeg [("b", [2])] [("b", [3])]).2.1
    (fun _ => Iff.rfl) (by decide)⟩

/-- Claim C6: For every transformations mapping containing at least one
value that does not satisfy the Transform capability, construction fails
— whatever the cache size — with a `TypeContractViolation` reporting the
value types (so the offending value's type is among the reported ones),
before any forward, inverse or Jacobian call is possible. -/
theorem init_type_contract (ts : List (String × TValue)) (cs : Nat)
    (hbad : ∃ p ∈ ts, p.2.isTransform = false) :
    JointTransform.init ts cs =
      .error (.typeContractViolation (ts.map (fun p => p.2.typeName))) ∧
    ∀ p ∈ ts, p.2.typeName ∈ ts.map (fun p => p.2.typeName) := by
  constructor
  · have hall : ts.all (fun p => p.2.isTransform) = false := by
      obtain ⟨p, hp, hfalse⟩ := hbad
      cases h : ts.all (fun p => p.2.isTransform)
      · rfl
      · have := List.all_eq_true.mp h p hp
        rw [hfalse] at this
        exact absurd this (by simp)
    simp [JointTransform.init, hall]
  · intro p hp
    exact List.mem_map.mpr ⟨p, hp, rfl⟩

/-- Witness for C6: a one-entry mapping holding a string instead of a
transform is rejected at construction. -/
theorem init_type_contract_witness :
    JointTransform.init [("a", TValue.other strValueType)] 0 =
      .error (.typeContractViolation
        (([("a", TValue.other strValueType)] : List (String × TValue)).map
          (fun p => p.2.typeName))) ∧
    ∀ p ∈ ([("a", TValue.other strValueType)] : List (String × TValue)),
      p.2.typeName ∈ ([("a", TValue.other strValueType)] : List (String × TValue)).map
        (fun p => p.2.typeName) :=
  init_type_contract [("a", TValue.other strValueType)] 0
    ⟨("a", TValue.other strValueType), by simp, rfl⟩

/-- Reducing `Except` bind on a success value. -/
theorem bind_ok_eq {α β : Type} (a : α) (f : α → Except JTError β) :
    ((Except.ok a : Except JTError α) >>= f) = f a := rfl

/-- Reducing `Except` bind on an error value. -/
theorem bind_error_eq {α β : Type} (e : JTError) (f : α → Except JTError β) :
    ((Except.error e : Except JTError α) >>= f) = .error e := rfl

/-- Recovering the transform list from the constructor's type-checked
values. -/
theorem filterMap_tr (l : List (String × Transform)) :
    List.filterMap ((fun p : String × TValue =>
      match p.2 with
      | TValue.tr t => some (p.1, t)
      | TValue.other _ => none) ∘ fun p : String × Transform => (p.1, TValue.tr p.2)) l
      = l := by
  induction l with
  | nil => rfl
  | cons p rest ih =>
    simp only [List.filterMap_cons, Function.comp_apply]
    simp [ih]

/-- The cache-wrapping comprehension at cache size one: every entry is
replaced by its cache-enabled variant. -/
theorem mapWithCache_one (l : List (String × Transform)) :
    JointTransform.mapWithCache 1 l =
      .ok (l.map (fun p => (p.1, { p.2 with cache_size := 1 }))) := by
  induction l with
  | nil => rfl
  | cons p rest ih =>
    by_cases h : p.2.cache_size = 1
    · obtain ⟨k, t⟩ := p
      obtain ⟨tf, ti, tl, tb, td, tc, tcs⟩ := t
      simp only at h
      subst h
      simp [JointTransform.mapWithCache, Transform.with_cache, ih, bind_ok_eq]
    · have hb : (p.2.cache_size == 1) = false := by simp [h]
      simp [JointTransform.mapWithCache, Transform.with_cache, hb, ih, bind_ok_eq]

/-- The cache-wrapping comprehension at an unsupported cache size either
succeeds entry-wise (when every entry already carries that cache size) or
fails with the configuration error — never any other error. -/
theorem mapWithCache_unsupported (c : Nat) (hc0 : c ≠ 0) (hc1 : c ≠ 1)
    (l : List (String × Transform)) :
    (∃ l', JointTransform.mapWithCache c l = .ok l') ∨
      JointTransform.mapWithCache c l = .error .configurationError := by
  induction l with
  | nil => exact .inl ⟨[], rfl⟩
  | cons p rest ih =>
    by_cases hc : (p.2.cache_size == c) = true
    · rcases ih with ⟨l', hl'⟩ | hl'
      · exact .inl ⟨(p.1, p.2) :: l',
          by simp [JointTransform.mapWithCache, Transform.with_cache, hc, hl', bind_ok_eq, bind_error_eq]⟩
      · exact .inr
          (by simp [JointTransform.mapWithCache, Transform.with_cache, hc, hl', bind_ok_eq, bind_error_eq])
    · have hwc : Transform.with_cache p.2 c = .error .configurationError := by
        simp [Transform.with_cache, hc, hc0, hc1]
      exact .inr (by simp [JointTransform.mapWithCache, hwc, bind_error_eq])

/-- Claim C7: With a registry of genuine transforms: cache size 0 stores the
supplied transforms unmodified; cache size 1 stores each transform's
cache-enabled (cache size 1) variant; every other cache size makes
construction fail fast with a `ConfigurationError`.  (The cache-size
validation itself lives in the external torch base class and is modelled
from the spec.) -/
theorem init_cache_policy (ts : List (String × Transform)) (c : Nat) :
    JointTransform.init (ts.map (fun p => (p.1, TValue.tr p.2))) 0 = .ok ⟨ts, 0⟩ ∧
    JointTransform.init (ts.map (fun p => (p.1, TValue.tr p.2))) 1 =
      .ok ⟨ts.map (fun p => (p.1, { p.2 with cache_size := 1 })), 1⟩ ∧
    (c ≠ 0 → c ≠ 1 →
      JointTransform.init (ts.map (fun p => (p.1, TValue.tr p.2))) c =
        .error .configurationError) := by
  have hall : (ts.map (fun p => (p.1, TValue.tr p.2))).all
      (fun p => p.2.isTransform) = true := by
    rw [List.all_eq_true]
    intro p hp
    obtain ⟨q, _, rfl⟩ := List.mem_map.mp hp
    rfl
  refine ⟨?_, ?_, ?_⟩
  · simp [JointTransform.init, hall, filterMap_tr, bind_ok_eq]
  · simp [JointTransform.init, hall, filterMap_tr, mapWithCache_one, bind_ok_eq]
  · intro hc0 hc1
    have hvalid : ¬ (c = 0 ∨ c = 1) := by tauto
    rcases mapWithCache_unsupported c hc0 hc1 ts with ⟨l', hl'⟩ | hl'
    · simp [JointTransform.init, hall, filterMap_tr, hc0, hc1, hl', hvalid, bind_ok_eq]
    · simp [JointTransform.init, hall, filterMap_tr, hc0, hc1, hl', bind_error_eq]

/-- Witness for C7: a singleton registry under cache sizes 0, 1 and 2. -/
theorem init_cache_policy_witness :
    JointTransform.init ([("a", negT)].map (fun p => (p.1, TValue.tr p.2))) 0 =
      .ok ⟨[("a", negT)], 0⟩ ∧
    JointTransform.init ([("a", negT)].map (fun p => (p.1, TValue.tr p.2))) 1 =
      .ok ⟨[("a", negT)].map (fun p => (p.1, { p.2 with cache_size := 1 })), 1⟩ ∧
    JointTransform.init ([("a", negT)].map (fun p => (p.1, TValue.tr p.2))) 2 =
      .error .configurationError :=
  ⟨(init_cache_policy [("a", negT)] 2).1,
   (init_cache_policy [("a", negT)] 2).2.1,
   (init_cache_policy [("a", negT)] 2).2.2 (by decide) (by decide)⟩

/-- Claim C8: `is_bijective` is true iff every registered transform reports
bijective = true; one non-bijective component forces false.  The value is
the pure reduction `all` over the registry, with no side effects. -/
theorem bijective_reduction (jt : JointTransform) :
    (jt.bijective = true ↔ ∀ p ∈ jt.transformations, p.2.bijective = true) ∧
    (∀ p ∈ jt.transformations, p.2.bijective = false → jt.bijective = false) := by
  constructor
  · simp [JointTransform.bijective]
  · intro p hp hfalse
    cases h : jt.bijective
    · rfl
    · have := List.all_eq_true.mp h p hp
      rw [hfalse] at this
      exact absurd this (by simp)

/-- Witness for C8: a registry with one bijective and one non-bijective
component reports `bijective = false`. -/
theorem bijective_reduction_witness :
    (JointTransform.mk [("a", negT), ("b", sqT)] 0).bijective = false :=
  (bijective_reduction (JointTransform.mk [("a", negT), ("b", sqT)] 0)).2
    ("b", sqT) (by simp) rfl

/-- The clone-then-update step touches only the freshly allocated cell:
every previously allocated cell keeps its value. -/
theorem heap_frame (h : Heap) (x d : TensorDict) (r : Nat)
    (hwf : h.WF) (hlt : r < h.next) :
    Heap.get (Heap.setCell (h.alloc x).1 (h.alloc x).2 d) r = Heap.get h r := by
  unfold Heap.get Heap.setCell Heap.alloc
  simp only
  rw [List.map_append]
  have hmap : h.cells.map (fun c => if c.1 == h.next then ((h.next : Nat), d) else c) =
      h.cells := by
    conv_rhs => rw [← List.map_id h.cells]
    apply List.map_congr_left
    intro c hc
    have hne : (c.1 == h.next) = false := by
      simp [Nat.ne_of_lt (hwf c hc)]
    simp [hne]
  have hsingle : [((h.next : Nat), x)].map
      (fun c => if c.1 == h.next then ((h.next : Nat), d) else c) = [(h.next, d)] := by
    simp
  rw [hmap, hsingle, List.find?_append]
  have hnone : List.find? (fun c => c.1 == r) [((h.next : Nat), d)] = none := by
    simp [Nat.ne_of_gt hlt]
  rw [hnone]
  cases List.find? (fun c => c.1 == r) h.cells <;> simp

/-- A live reference in a well-formed heap is below the allocation
counter. -/
theorem ref_lt_next (h : Heap) (r : Nat) (x : TensorDict)
    (hwf : h.WF) (hr : Heap.get h r = some x) : r < h.next := by
  unfold Heap.get at hr
  rcases hfind : h.cells.find? (fun c => c.1 == r) with _ | c
  · rw [hfind] at hr
    simp at hr
  · have hc := List.find?_some hfind
    have hmem := List.mem_of_find?_eq_some hfind
    have : c.1 = r := by simpa using hc
    exact this ▸ hwf c hmem

/-- Claim C9: Frame property: at the heap level, `forward`, `inverse` and
`log_abs_det_jacobian` never mutate the caller's containers — each clones
its input and updates only the clone, so after a successful call every
input reference still holds exactly the value it held before (a failed
call raises before anything is written). -/
theorem inputs_never_mutated (jt : JointTransform) (h : Heap) (r s : Nat)
    (x y : TensorDict) (hwf : h.WF) (hr : Heap.get h r = some x)
    (hs : Heap.get h s = some y) :
    (∀ h' r', jt.callRef h r = .ok (h', r') →
      Heap.get h' r = some x ∧ Heap.get h' s = some y) ∧
    (∀ h' r', jt.inverseRef h r = .ok (h', r') →
      Heap.get h' r = some x ∧ Heap.get h' s = some y) ∧
    (∀ h' r', jt.log_abs_det_jacobianRef h r s = .ok (h', r') →
      Heap.get h' r = some x ∧ Heap.get h' s = some y) := by
  have hrlt : r < h.next := ref_lt_next h r x hwf hr
  have hslt : s < h.next := ref_lt_next h s y hwf hs
  refine ⟨?_, ?_, ?_⟩
  · intro h' r' hok
    unfold JointTransform.callRef at hok
    rw [hr] at hok
    by_cases hg : TensorDict.covers x jt.keysOf = true
    · simp only [hg, if_true, Except.ok.injEq, Prod.mk.injEq] at hok
      obtain ⟨hh, -⟩ := hok
      subst hh
      exact ⟨(heap_frame h x _ r hwf hrlt).trans hr,
        (heap_frame h x _ s hwf hslt).trans hs⟩
    · simp [hg] at hok
  · intro h' r' hok
    unfold JointTransform.inverseRef at hok
    rw [hr] at hok
    by_cases hg : TensorDict.covers x jt.keysOf = true
    · simp only [hg, if_true, Except.ok.injEq, Prod.mk.injEq] at hok
      obtain ⟨hh, -⟩ := hok
      subst hh
      exact ⟨(heap_frame h x _ r hwf hrlt).trans hr,
        (heap_frame h x _ s hwf hslt).trans hs⟩
    · simp [hg] at hok
  · intro h' r' hok
    unfold JointTransform.log_abs_det_jacobianRef at hok
    rw [hr, hs] at hok
    by_cases hg1 : TensorDict.sameKeys x y = true
    · by_cases hg2 : TensorDict.covers x jt.keysOf = true
      · simp only [hg1, hg2, if_true, Except.ok.injEq, Prod.mk.injEq] at hok
        obtain ⟨hh, -⟩ := hok
        subst hh
        exact ⟨(heap_frame h x _ r hwf hrlt).trans hr,
          (heap_frame h x _ s hwf hslt).trans hs⟩
      · simp [hg1, hg2] at hok
    · simp [hg1] at hok

/-- Witness for C9: after applying the concrete registry `{"a": negT}`
through a reference on a one-cell heap, the input cell still holds its
original container. -/
theorem inputs_never_mutated_witness :
    jtNeg.callRef ⟨[(0, xab)], 1⟩ 0 =
      .ok (⟨[(0, xab), (1, [("a", [-1]), ("b", [5])])], 2⟩, 1) ∧
    Heap.get ⟨[(0, xab), (1, [("a", [-1]), ("b", [5])])], 2⟩ 0 = some xab :=
  ⟨rfl,
   ((inputs_never_mutated jtNeg ⟨[(0, xab)], 1⟩ 0 0 xab xab
      (by
        intro c hc
        simp at hc
        simp [hc])
      rfl rfl).1
    ⟨[(0, xab), (1, [("a", [-1]), ("b", [5])])], 2⟩ 1 rfl).1⟩

/-- Claim C10: With an empty transformations mapping, every operation
succeeds on any container: construction succeeds, `forward` and `inverse`
return the container unchanged, `is_bijective` is true, `domain` and
`codomain` are empty mappings, and `log_abs_det_jacobian(x, y)` for any
`x`, `y` with equal key sets maps every key of `x` to a ones tensor
shaped like `x`'s field. -/
theorem empty_registry_ops (x y : TensorDict)
    (hsame : ∀ k, k ∈ TensorDict.keys x ↔ k ∈ TensorDict.keys y) :
    JointTransform.init [] 0 = .ok ⟨[], 0⟩ ∧
    (JointTransform.mk [] 0).call x = .ok x ∧
    (JointTransform.mk [] 0).inverse x = .ok x ∧
    (JointTransform.mk [] 0).bijective = true ∧
    (JointTransform.mk [] 0).domain = [] ∧
    (JointTransform.mk [] 0).codomain = [] ∧
    ∃ r, (JointTransform.mk [] 0).log_abs_det_jacobian x y = .ok r ∧
      TensorDict.keys r = TensorDict.keys x ∧
      ∀ k ∈ TensorDict.keys x,
        TensorDict.get r k = some (onesLike (TensorDict.getT x k)) := by
  have hupd : ∀ d : TensorDict, TensorDict.update d [] = d := by
    intro d
    unfold TensorDict.update
    rw [show TensorDict.overwrite [] = id from funext fun _ => rfl]
    simp
  have hguard1 : TensorDict.sameKeys x y = true :=
    (TensorDict.sameKeys_iff x y).mpr
      ⟨fun k hk => (hsame k).mp hk, fun k hk => (hsame k).mpr hk⟩
  refine ⟨rfl, ?_, ?_, rfl, rfl, rfl, ?_⟩
  · simp [JointTransform.call, JointTransform.keysOf, TensorDict.covers, hupd]
  · simp [JointTransform.inverse, JointTransform.keysOf, TensorDict.covers, hupd]
  · refine ⟨TensorDict.update x ((TensorDict.keys x).map (fun k =>
      (k, onesLike (TensorDict.getT x k)))), ?_, ?_, ?_⟩
    · simp [JointTransform.log_abs_det_jacobian, hguard1, JointTransform.keysOf,
        TensorDict.covers]
    · apply TensorDict.keys_update
      intro p hp
      obtain ⟨j, hj, rfl⟩ := List.mem_map.mp hp
      exact hj
    · intro k hk
      exact get_update_keyed x (fun j => onesLike (TensorDict.getT x j)) k hk

/-- Witness for C10: the empty registry on the concrete container
`{"a": [1], "b": [5]}`. -/
theorem empty_registry_ops_witness :
    JointTransform.init [] 0 = .ok ⟨[], 0⟩ ∧
    (JointTransform.mk [] 0).call xab = .ok xab ∧
    (JointTransform.mk [] 0).inverse xab = .ok xab ∧
    (JointTransform.mk [] 0).bijective = true ∧
    (JointTransform.mk [] 0).domain = [] ∧
    (JointTransform.mk [] 0).codomain = [] ∧
    ∃ r, (JointTransform.mk [] 0).log_abs_det_jacobian xab xab = .ok r ∧
      TensorDict.keys r = TensorDict.keys xab ∧
      ∀ k ∈ TensorDict.keys xab,
        TensorDict.get r k = some (onesLike (TensorDict.getT xab k)) :=
  empty_registry_ops xab xab (fun _ => Iff.rfl)

end Causica
